import Mathlib

/-!
Verification of the drone edge aggregator (src/drone_edge/drone.py).

The aggregator's shared state and its operations are embedded shallowly:
numeric sensor values are modelled as rationals, timestamps and sensor ids
as opaque strings.  The connection layer is embedded twice: a typed model
(`handleLine`, with the decoder abstracted as
`parse : String → Option Reading`) for the well-shaped region where the
well-typed claims live, and an untyped model (`handleRawLine`,
`processRawTick` over `JsonValue`) that distinguishes every parse class a
framed line can fall into — not UTF-8, not JSON, JSON of the wrong shape,
proper record — because the code's containers are untyped and its only
guard is `except json.JSONDecodeError`.  Every loop body below is executed
by the Python code while holding the single shared lock `self.lock`, so
each loop iteration is modelled as an atomic state transformer;
`Option`-valued results model uncaught exceptions that kill the
corresponding thread.
-/

namespace DroneEdge

/-- A sensor observation, the JSON record
`{"sensor_id", "temperature", "humidity", "timestamp"}` produced by a leaf
sensor. -/
structure Reading where
  sensor_id : String
  temperature : ℚ
  humidity : ℚ
  timestamp : String
deriving Repr, DecidableEq, Inhabited

/-- A rolling-window aggregate, the record built by `_process_loop`:
`{"avg_temp": round(avg_temp, 2), "avg_humid": round(avg_humid, 2),
"last_update": ...}`. -/
structure Summary where
  avg_temp : ℚ
  avg_humid : ℚ
  last_update : String
deriving Repr, DecidableEq, Inhabited

/-- The shared mutable state of `DroneEdge.__init__`: the `sensor_data`
queue, the `readings` deque (with its `maxlen`, kept here as
`rolling_window`), the `anomalies` list (each entry is the reading that was
tagged `"type": "anomaly"`), the battery simulation fields and the
`forward_queue`.  All of it is guarded by the single lock `self.lock`. -/
structure DroneState where
  sensor_data : List Reading
  readings : List Reading
  rolling_window : Nat
  anomalies : List Reading
  battery : ℚ
  battery_threshold : ℚ
  returning : Bool
  forward_queue : List Summary
deriving Repr, DecidableEq

/-- `deque(maxlen=maxlen).append`: append on the right, evicting from the
left whatever exceeds the capacity. -/
def dequeAppend (maxlen : Nat) (xs : List Reading) (r : Reading) : List Reading :=
  let ys := xs ++ [r]
  if maxlen < ys.length then ys.drop (ys.length - maxlen) else ys

/-- One parsed line inside `_handle_sensor`: on success the reading is put
on the `sensor_data` queue and appended to the `readings` deque under the
lock; on `JSONDecodeError` nothing is touched and a warning is logged (the
returned Bool records whether the warning fired). -/
def handleLine (parse : String → Option Reading) (st : DroneState) (line : String) :
    DroneState × Bool :=
  match parse line with
  | some reading =>
      ({ st with
          sensor_data := st.sensor_data ++ [reading]
          readings := dequeAppend st.rolling_window st.readings reading }, false)
  | none => (st, true)

/-- The anomaly test of `_process_loop`:
`temperature < -10 or temperature > 60 or humidity < 0 or humidity > 100`. -/
def isAnomaly (r : Reading) : Bool :=
  decide (r.temperature < -10) || decide (r.temperature > 60) ||
  decide (r.humidity < 0) || decide (r.humidity > 100)

/-- The average computation at the top of `_process_loop`: `(0.0, 0.0)`
when `self.readings` is empty, otherwise `(sum(temps)/len(temps),
sum(hums)/len(hums))` over the current window contents. -/
def currentAverage (readings : List Reading) : ℚ × ℚ :=
  if readings.isEmpty then (0, 0)
  else ((readings.map Reading.temperature).sum / readings.length,
        (readings.map Reading.humidity).sum / readings.length)

/-- Round to the nearest integer, ties to the even integer (the rounding
used by Python's builtin `round`; the binary-float representation is
abstracted away by working in ℚ). -/
def roundHalfEven (q : ℚ) : ℤ :=
  let f := q.floor
  if q - f < 1/2 then f
  else if 1/2 < q - f then f + 1
  else if f % 2 = 0 then f else f + 1

/-- `round(x, 2)`: round to two decimal places. -/
def round2 (q : ℚ) : ℚ := (roundHalfEven (q * 100) : ℚ) / 100

/-- The body of `_process_loop` for one dequeued reading, executed under
the lock: compute the window averages, append the reading to `anomalies`
when it violates the bounds, build the summary with the rounded averages
and the current timestamp `now`, and append it to `forward_queue` only when
not returning. -/
def processReading (now : String) (st : DroneState) (r : Reading) : DroneState :=
  let avg := currentAverage st.readings
  let st1 := if isAnomaly r then { st with anomalies := st.anomalies ++ [r] } else st
  let summary : Summary :=
    { avg_temp := round2 avg.1, avg_humid := round2 avg.2, last_update := now }
  if st1.returning then st1
  else { st1 with forward_queue := st1.forward_queue ++ [summary] }

/-- One iteration of `_process_loop`: `sensor_data.get` (skipped when the
queue is empty, the `except: continue` branch) followed by the processing
body. -/
def processTick (now : String) (st : DroneState) : DroneState :=
  match st.sensor_data with
  | [] => st
  | r :: rest => processReading now { st with sensor_data := rest } r

/-- The classification of one framed line by what
`json.loads(line.decode("utf-8"))` does with it: the bytes may not decode
as UTF-8 (`line.decode` raises `UnicodeDecodeError`), the decoded text may
fail to parse as JSON (`json.loads` raises `json.JSONDecodeError`), the
parsed JSON value may lack the expected record fields (so that the later
`r["temperature"]` / `r["humidity"]` subscripts raise), or the line may be
a proper reading record. -/
inductive LineParse where
  | notUtf8
  | notJson
  | wrongShape (payload : String)
  | record (r : Reading)
deriving DecidableEq, Repr

/-- A decoded JSON value exactly as the untyped Python containers store
it: a proper reading record, or any other JSON value (kept as its source
text) on which the record field subscripts raise. -/
inductive JsonValue where
  | record (r : Reading)
  | other (payload : String)
deriving DecidableEq, Repr

/-- How one `_handle_sensor` line iteration ends: ingested silently,
discarded with the `Invalid JSON` warning, or an uncaught exception that
ends this connection's reader thread. -/
inductive LineOutcome where
  | ok
  | warned
  | readerDied
deriving DecidableEq, Repr

/-- `deque(maxlen=maxlen).append` on the untyped window. -/
def dequeAppendRaw (maxlen : Nat) (xs : List JsonValue) (v : JsonValue) : List JsonValue :=
  let ys := xs ++ [v]
  if maxlen < ys.length then ys.drop (ys.length - maxlen) else ys

/-- The shared containers as the Python code actually holds them:
`sensor_data` and `readings` receive whatever `json.loads` returned,
record-shaped or not. -/
structure RawState where
  sensor_data : List JsonValue
  readings : List JsonValue
  rolling_window : Nat
  anomalies : List JsonValue
  returning : Bool
  forward_queue : List Summary
deriving DecidableEq, Repr

/-- One framed line inside `_handle_sensor` (drone.py lines 106-113), by
its parse class: only `json.JSONDecodeError` is caught, so a non-UTF-8
line raises out of the loop and kills the reader; any value that
`json.loads` returns — record-shaped or not — is put on the `sensor_data`
queue and appended to the window. -/
def handleRawLine (st : RawState) : LineParse → RawState × LineOutcome
  | LineParse.notUtf8 => (st, LineOutcome.readerDied)
  | LineParse.notJson => (st, LineOutcome.warned)
  | LineParse.wrongShape p =>
      ({ st with
          sensor_data := st.sensor_data ++ [JsonValue.other p]
          readings := dequeAppendRaw st.rolling_window st.readings (JsonValue.other p) },
       LineOutcome.ok)
  | LineParse.record r =>
      ({ st with
          sensor_data := st.sensor_data ++ [JsonValue.record r]
          readings := dequeAppendRaw st.rolling_window st.readings (JsonValue.record r) },
       LineOutcome.ok)

/-- The `_handle_sensor` loop over a connection's framed lines: lines are
handled in order until one raises an uncaught exception; the Bool records
whether the reader survived to the end of the input (lines after an
uncaught raise are never processed). -/
def handleRawLines (st : RawState) : List LineParse → RawState × Bool
  | [] => (st, true)
  | l :: rest =>
      let p := handleRawLine st l
      match p.2 with
      | LineOutcome.readerDied => (p.1, false)
      | _ => handleRawLines p.1 rest

/-- `r["temperature"]` on an untyped value: `none` models the uncaught
exception when the value lacks the field. -/
def rawTemperature : JsonValue → Option ℚ
  | JsonValue.record r => some r.temperature
  | JsonValue.other _ => none

/-- `r["humidity"]` on an untyped value. -/
def rawHumidity : JsonValue → Option ℚ
  | JsonValue.record r => some r.humidity
  | JsonValue.other _ => none

/-- A list comprehension of field subscripts: the whole comprehension
raises as soon as one element raises. -/
def mapFields (f : JsonValue → Option ℚ) : List JsonValue → Option (List ℚ)
  | [] => some []
  | v :: vs =>
      match f v, mapFields f vs with
      | some q, some qs => some (q :: qs)
      | _, _ => none

/-- The averages block of `_process_loop` (drone.py lines 122-129) on the
untyped window: `(0, 0)` on an empty window, the means otherwise, and
`none` — an uncaught exception in the comprehensions of lines 124-125,
which no handler covers — when some window entry lacks the fields. -/
def rawAverages (w : List JsonValue) : Option (ℚ × ℚ) :=
  if w.isEmpty then some (0, 0)
  else
    match mapFields rawTemperature w, mapFields rawHumidity w with
    | some temps, some hums => some (temps.sum / temps.length, hums.sum / hums.length)
    | _, _ => none

/-- The anomaly test of drone.py lines 132-133 on an untyped dequeued
value: `none` when the field subscripts raise. -/
def rawIsAnomaly : JsonValue → Option Bool
  | JsonValue.record r => some (isAnomaly r)
  | JsonValue.other _ => none

/-- One `_process_loop` iteration on the untyped state (drone.py lines
116-145): the `try/except` of lines 118-121 covers only the queue `get`,
so a raise in the averages comprehension (line 124) or in the anomaly test
(line 132) is uncaught and kills the processing thread, modelled by
`none`. -/
def processRawTick (now : String) (st : RawState) : Option RawState :=
  match st.sensor_data with
  | [] => some st
  | v :: rest =>
      let st0 := { st with sensor_data := rest }
      match rawAverages st0.readings with
      | none => none
      | some avg =>
          match rawIsAnomaly v with
          | none => none
          | some anom =>
              let st1 :=
                if anom then { st0 with anomalies := st0.anomalies ++ [v] } else st0
              let summary : Summary :=
                { avg_temp := round2 avg.1, avg_humid := round2 avg.2, last_update := now }
              some (if st1.returning then st1
                    else { st1 with forward_queue := st1.forward_queue ++ [summary] })


/-- One iteration of `_battery_simulation`, under the lock:
`battery = max(0.0, battery - 0.5)`, then the mode flips to returning when
the new level is at or below the threshold and it was not already
returning (an idempotent check: once returning, it stays returning). -/
def batteryTick (st : DroneState) : DroneState :=
  let b := max 0 (st.battery - 1/2)
  { st with
      battery := b
      returning := st.returning || decide (b ≤ st.battery_threshold) }

/-- `n` consecutive battery-decay ticks. -/
def batteryRun (st : DroneState) : Nat → DroneState
  | 0 => st
  | n + 1 => batteryTick (batteryRun st n)

/-- The GUI `_reset_battery` action, under the lock: `battery = 100.0`,
`returning = False`. -/
def resetBattery (st : DroneState) : DroneState :=
  { st with battery := 100, returning := false }

/-- One iteration of `_forward_loop`, all of it under the lock: when not
returning and the queue is non-empty, snapshot the queue as `batch`,
attempt `_send_to_central(batch)` (`sendOk` tells whether the send
succeeded or raised), and clear the queue only on success; on failure the
exception is caught and only logged.  The second component is the batch
that was successfully transmitted, if any. -/
def forwardTick (sendOk : Bool) (st : DroneState) : DroneState × Option (List Summary) :=
  if !st.returning && !st.forward_queue.isEmpty then
    let batch := st.forward_queue
    if sendOk then ({ st with forward_queue := [] }, some batch)
    else (st, none)
  else (st, none)

/-- Lock/IO events, used to examine the lock discipline of the forward
loop. -/
inductive LockEvent where
  | acquire
  | ioSend
  | release
deriving DecidableEq, Repr

/-- The event trace of one `_forward_loop` iteration, read off the source:
`with self.lock:` opens the critical section, and inside it, when not
returning and the queue is non-empty, `_send_to_central` performs the
blocking connect and send; the lock is released when the `with` block
ends. -/
def forwardTickEvents (returning : Bool) (queueNonempty : Bool) : List LockEvent :=
  [LockEvent.acquire]
    ++ (if !returning && queueNonempty then [LockEvent.ioSend] else [])
    ++ [LockEvent.release]

/-- The trace performs a blocking send strictly between acquiring and
releasing the lock. -/
def sendWhileLocked (evs : List LockEvent) : Prop :=
  ∃ i j k : Fin evs.length, i < j ∧ j < k ∧
    evs.get i = LockEvent.acquire ∧ evs.get j = LockEvent.ioSend ∧
    evs.get k = LockEvent.release

instance (evs : List LockEvent) : Decidable (sendWhileLocked evs) := by
  unfold sendWhileLocked; infer_instance

/-- `line, buf = buf.split(b"\n", 1)`: split a buffer at its first newline,
`none` when it has no newline (the loop guard `b"\n" in buf`). -/
def breakNL : List Char → Option (List Char × List Char)
  | [] => none
  | c :: cs =>
      if c = '\n' then some ([], cs)
      else (breakNL cs).map (fun p => (c :: p.1, p.2))

theorem breakNL_length : ∀ {s l r : List Char}, breakNL s = some (l, r) → r.length < s.length := by
  intro s
  induction s with
  | nil => intro l r h; simp [breakNL] at h
  | cons c cs ih =>
      intro l r h
      by_cases hc : c = '\n'
      · simp [breakNL, hc] at h
        simp [← h.2]
      · cases hb : breakNL cs with
        | none => simp [breakNL, hc, hb] at h
        | some p =>
            obtain ⟨p1, p2⟩ := p
            have hlt := ih hb
            simp [breakNL, hc, hb] at h
            have h2 := h.2
            subst h2
            simp only [List.length_cons]
            omega

/-- The `while b"\n" in buf` loop of `_handle_sensor`: repeatedly strip the
first complete line off the buffer; returns the extracted lines in order
and the final (newline-free) buffer. -/
def drainBuf (s : List Char) : List (List Char) × List Char :=
  match h : breakNL s with
  | none => ([], s)
  | some (line, rest) =>
      let p := drainBuf rest
      (line :: p.1, p.2)
termination_by s.length
decreasing_by exact breakNL_length h

/-- One `recv` of `_handle_sensor`: `buf += data` then drain the complete
lines. -/
def readerStep (acc : List (List Char)) (buf : List Char) (chunk : List Char) :
    List (List Char) × List Char :=
  let p := drainBuf (buf ++ chunk)
  (acc ++ p.1, p.2)

/-- The whole `_handle_sensor` receive loop over a list of received
chunks, starting from the empty buffer. -/
def readerRun (chunks : List (List Char)) : List (List Char) × List Char :=
  chunks.foldl (fun st chunk => readerStep st.1 st.2 chunk) ([], [])

/-- The decoded records a connection yields: each complete line is fed to
the JSON decoder, lines that fail to decode are dropped. -/
def readerRecords (parse : List Char → Option Reading) (chunks : List (List Char)) :
    List Reading :=
  ((readerRun chunks).1).filterMap parse

/-- Specification-side single-pass line splitter, used to reason about
`drainBuf` compositionally. -/
def consHead (c : Char) : List (List Char) × List Char → List (List Char) × List Char
  | ([], r) => ([], c :: r)
  | (l :: ls, r) => ((c :: l) :: ls, r)

/-- Prepend a (newline-free) leftover buffer to the first line of a split
result, or to the remainder when there is no complete line. -/
def consFirst (b : List Char) : List (List Char) × List Char → List (List Char) × List Char
  | ([], r) => ([], b ++ r)
  | (l :: ls, r) => ((b ++ l) :: ls, r)

/-- Split a character stream at newline terminators: the complete
(newline-terminated) lines in order, and the unterminated remainder. -/
def splitLines : List Char → List (List Char) × List Char
  | [] => ([], [])
  | c :: cs =>
      if c = '\n' then ([] :: (splitLines cs).1, (splitLines cs).2)
      else consHead c (splitLines cs)

/-- A whole run of ingestion: every reading of `rs`, in arrival order,
appended to an initially empty `readings` deque of capacity `w`. -/
def ingestAll (w : Nat) (rs : List Reading) : List Reading :=
  rs.foldl (dequeAppend w) []

theorem dequeAppend_of_le (w : Nat) (xs : List Reading) (r : Reading)
    (h : xs.length ≤ w) :
    dequeAppend w xs r = (xs ++ [r]).drop (xs.length + 1 - w) := by
  unfold dequeAppend
  by_cases hw : w < (xs ++ [r]).length
  · rw [if_pos hw]
    congr 1
    simp
  · rw [if_neg hw]
    simp only [List.length_append, List.length_singleton, not_lt] at hw
    have hz : xs.length + 1 - w = 0 := by omega
    rw [hz, List.drop_zero]

theorem dequeAppend_length (w : Nat) (xs : List Reading) (r : Reading)
    (h : xs.length ≤ w) :
    (dequeAppend w xs r).length = min w (xs.length + 1) := by
  rw [dequeAppend_of_le w xs r h]
  simp
  omega

theorem foldl_dequeAppend (w : Nat) :
    ∀ (rs init : List Reading), init.length ≤ w →
      rs.foldl (dequeAppend w) init = (init ++ rs).drop (init.length + rs.length - w) := by
  intro rs
  induction rs with
  | nil =>
      intro init h
      simp only [List.foldl_nil, List.append_nil, List.length_nil, Nat.add_zero,
        Nat.sub_eq_zero_of_le h, List.drop_zero]
  | cons r rs ih =>
      intro init h
      have hd : dequeAppend w init r = (init ++ [r]).drop (init.length + 1 - w) :=
        dequeAppend_of_le w init r h
      have hlen2 : (dequeAppend w init r).length = min w (init.length + 1) :=
        dequeAppend_length w init r h
      have hlen : (dequeAppend w init r).length ≤ w := by
        rw [hlen2]; omega
      rw [List.foldl_cons, ih (dequeAppend w init r) hlen, hlen2, hd,
        ← List.drop_append_of_le_length (by simp), List.drop_drop]
      simp only [List.length_cons]
      have harith : init.length + 1 - w + (min w (init.length + 1) + rs.length - w)
          = init.length + (rs.length + 1) - w := by omega
      rw [harith]
      congr 1
      simp

theorem consFirst_nil_left (p : List (List Char) × List Char) : consFirst [] p = p := by
  obtain ⟨ls, r⟩ := p
  cases ls <;> simp [consFirst]

theorem consFirst_cons (c : Char) (b : List Char) (p : List (List Char) × List Char) :
    consFirst (c :: b) p = consHead c (consFirst b p) := by
  obtain ⟨ls, r⟩ := p
  cases ls <;> simp [consFirst, consHead]

theorem splitLines_append (u v : List Char) :
    splitLines (u ++ v) =
      ((splitLines u).1 ++ (consFirst (splitLines u).2 (splitLines v)).1,
       (consFirst (splitLines u).2 (splitLines v)).2) := by
  induction u with
  | nil => simp [splitLines, consFirst_nil_left]
  | cons c u ih =>
      by_cases hc : c = '\n'
      · simp [splitLines, hc, ih]
      · rcases hu : splitLines u with ⟨ls1, b1⟩
        rw [hu] at ih
        cases ls1 with
        | nil =>
            rcases hF : consFirst b1 (splitLines v) with ⟨fls, fr⟩
            simp [splitLines, hc, ih, hu, hF, consFirst_cons]
            simp [consHead, consFirst_cons, hF]
        | cons l ls =>
            simp [splitLines, hc, ih, hu, consHead]

theorem splitLines_no_nl (s : List Char) : '\n' ∉ (splitLines s).2 := by
  induction s with
  | nil => simp [splitLines]
  | cons c cs ih =>
      by_cases hc : c = '\n'
      · simpa [splitLines, hc] using ih
      · rcases hp : splitLines cs with ⟨ls, r⟩
        rw [hp] at ih
        cases ls with
        | nil =>
            rw [splitLines, if_neg hc, hp, consHead]
            simp only [List.mem_cons, not_or]
            exact ⟨fun hcc => hc hcc.symm, ih⟩
        | cons l tl =>
            rw [splitLines, if_neg hc, hp, consHead]
            exact ih

theorem splitLines_of_no_nl (s : List Char) (h : '\n' ∉ s) : splitLines s = ([], s) := by
  induction s with
  | nil => simp [splitLines]
  | cons c cs ih =>
      simp only [List.mem_cons, not_or] at h
      have hc : c ≠ '\n' := fun hcc => h.1 hcc.symm
      rw [splitLines, if_neg hc, ih h.2, consHead]

theorem splitLines_noNL_append (b v : List Char) (hb : '\n' ∉ b) :
    splitLines (b ++ v) = consFirst b (splitLines v) := by
  rw [splitLines_append, splitLines_of_no_nl b hb]
  simp

theorem breakNL_eq_none {s : List Char} : breakNL s = none ↔ '\n' ∉ s := by
  induction s with
  | nil => simp [breakNL]
  | cons c cs ih =>
      by_cases hc : c = '\n'
      · simp [breakNL, hc]
      · have hcc : ¬('\n' = c) := fun hcc => hc hcc.symm
        simp [breakNL, hc, hcc, ih]

theorem breakNL_eq_some : ∀ {s l r : List Char}, breakNL s = some (l, r) →
    s = l ++ '\n' :: r ∧ '\n' ∉ l := by
  intro s
  induction s with
  | nil => intro l r h; simp [breakNL] at h
  | cons c cs ih =>
      intro l r h
      by_cases hc : c = '\n'
      · simp [breakNL, hc] at h
        obtain ⟨h1, h2⟩ := h
        subst h1
        subst h2
        simp [hc]
      · cases hb : breakNL cs with
        | none => simp [breakNL, hc, hb] at h
        | some p =>
            obtain ⟨p1, p2⟩ := p
            have hd := ih hb
            simp [breakNL, hc, hb] at h
            refine ⟨?_, ?_⟩
            · rw [← h.1, ← h.2, hd.1]; simp
            · rw [← h.1]
              simp only [List.mem_cons, not_or]
              exact ⟨fun hcc => hc hcc.symm, hd.2⟩

theorem drainBuf_eq (s : List Char) : drainBuf s = splitLines s := by
  have H : ∀ n (s : List Char), s.length ≤ n → drainBuf s = splitLines s := by
    intro n
    induction n with
    | zero =>
        intro s hs
        have hsnil : s = [] := List.length_eq_zero.mp (Nat.le_zero.mp hs)
        subst hsnil
        rw [drainBuf]
        cases hb : breakNL ([] : List Char) with
        | none => rfl
        | some p => simp [breakNL] at hb
    | succ n ih =>
        intro s hs
        rw [drainBuf]
        cases hb : breakNL s with
        | none => rw [splitLines_of_no_nl s (breakNL_eq_none.mp hb)]
        | some p =>
            obtain ⟨line, rest⟩ := p
            obtain ⟨hdec, hnl⟩ := breakNL_eq_some hb
            have hlen : rest.length ≤ n := by
              have := breakNL_length hb
              omega
            have hrest := ih rest hlen
            rw [hdec, splitLines_noNL_append line ('\n' :: rest) hnl]
            simp [splitLines, consFirst, hrest]
  exact H s.length s le_rfl

theorem readerFold (pre : List Char) (chunks : List (List Char)) :
    chunks.foldl (fun st chunk => readerStep st.1 st.2 chunk) (splitLines pre) =
      splitLines (pre ++ chunks.flatten) := by
  induction chunks generalizing pre with
  | nil => simp
  | cons c cs ih =>
      have hstep : readerStep (splitLines pre).1 (splitLines pre).2 c
          = splitLines (pre ++ c) := by
        rw [readerStep, drainBuf_eq,
          splitLines_noNL_append (splitLines pre).2 c (splitLines_no_nl pre),
          splitLines_append pre c]
      rw [List.foldl_cons, hstep, ih (pre ++ c), List.flatten_cons, List.append_assoc]

theorem readerRun_eq (chunks : List (List Char)) :
    readerRun chunks = splitLines chunks.flatten := by
  have h0 : (([], []) : List (List Char) × List Char) = splitLines [] := rfl
  rw [readerRun, h0, readerFold, List.nil_append]

theorem batteryTick_threshold (st : DroneState) :
    (batteryTick st).battery_threshold = st.battery_threshold := rfl

theorem batteryRun_threshold (st : DroneState) (n : Nat) :
    (batteryRun st n).battery_threshold = st.battery_threshold := by
  induction n with
  | zero => rfl
  | succ n ih => rw [batteryRun, batteryTick_threshold, ih]

theorem batteryTick_battery (st : DroneState) :
    (batteryTick st).battery = max 0 (st.battery - 1/2) := rfl

theorem batteryTick_returning (st : DroneState) :
    (batteryTick st).returning
      = (st.returning || decide ((batteryTick st).battery ≤ st.battery_threshold)) := rfl

theorem batteryRun_returning_iff (st : DroneState) (h : st.returning = false) (n : Nat) :
    (batteryRun st n).returning = true ↔
      ∃ m, 1 ≤ m ∧ m ≤ n ∧ (batteryRun st m).battery ≤ st.battery_threshold := by
  induction n with
  | zero =>
      rw [batteryRun, h]
      constructor
      · intro hfalse; exact absurd hfalse (by simp)
      · rintro ⟨m, h1, h2, h3⟩; omega
  | succ n ih =>
      rw [batteryRun, batteryTick_returning, Bool.or_eq_true, decide_eq_true_eq,
        batteryRun_threshold]
      constructor
      · intro hret
        rcases hret with hr | hb
        · obtain ⟨m, h1, h2, h3⟩ := ih.mp hr
          exact ⟨m, h1, by omega, h3⟩
        · exact ⟨n + 1, by omega, le_rfl, hb⟩
      · rintro ⟨m, h1, h2, h3⟩
        by_cases hm : m ≤ n
        · exact Or.inl (ih.mpr ⟨m, h1, hm, h3⟩)
        · have hm1 : m = n + 1 := by omega
          subst hm1
          exact Or.inr h3

theorem splitLines_reconstruct (s : List Char) :
    (((splitLines s).1.map (fun l => l ++ ['\n'])).flatten ++ (splitLines s).2 = s) ∧
    ∀ l ∈ (splitLines s).1, '\n' ∉ l := by
  induction s with
  | nil => simp [splitLines]
  | cons c cs ih =>
      by_cases hc : c = '\n'
      · subst hc
        constructor
        · simp [splitLines, ih.1]
        · intro l hl
          simp only [splitLines, if_pos rfl, List.mem_cons] at hl
          cases hl with
          | head => simp
          | tail b h2 => exact ih.2 l h2
      · rcases hp : splitLines cs with ⟨ls, r⟩
        rw [hp] at ih
        cases ls with
        | nil =>
            simp only [List.map_nil, List.flatten_nil, List.nil_append] at ih
            simp [splitLines, hc, hp, consHead, ih.1]
        | cons l tl =>
            simp only [List.map_cons, List.flatten_cons, List.append_assoc] at ih
            constructor
            · simp only [splitLines, hc, if_false, hp, consHead, List.map_cons,
                List.flatten_cons, List.append_assoc, List.cons_append]
              rw [← ih.1]
              simp
            · intro l2 hl2
              simp only [splitLines, hc, if_false, hp, consHead, List.mem_cons] at hl2
              rcases hl2 with h1 | h2
              · subst h1
                simp only [List.mem_cons, not_or]
                exact ⟨fun hcc => hc hcc.symm, ih.2 l (by simp)⟩
              · exact ih.2 l2 (by simp [h2])

/-! Concrete sample values used by the closed witness and counterexample
theorems below. -/

/-- A normal, in-bounds reading. -/
def exReading : Reading :=
  { sensor_id := "s1", temperature := 20, humidity := 50, timestamp := "2024-01-01T00:00:00Z" }

/-- A second in-bounds reading. -/
def exReading2 : Reading :=
  { sensor_id := "s2", temperature := 30, humidity := 70, timestamp := "2024-01-01T00:00:01Z" }

/-- A sample summary. -/
def exSummary : Summary :=
  { avg_temp := 25, avg_humid := 60, last_update := "2024-01-01T00:00:02Z" }

/-- A state in Active mode with a non-empty forward queue. -/
def exStActive : DroneState :=
  { sensor_data := [], readings := [exReading, exReading2], rolling_window := 10,
    anomalies := [], battery := 80, battery_threshold := 20, returning := false,
    forward_queue := [exSummary] }

/-- A state in Returning mode with an empty forward queue. -/
def exStReturning : DroneState :=
  { sensor_data := [], readings := [exReading], rolling_window := 10,
    anomalies := [], battery := 10, battery_threshold := 20, returning := true,
    forward_queue := [] }

/-- An Active state whose battery is about to cross the threshold. -/
def exStLowBattery : DroneState :=
  { sensor_data := [], readings := [], rolling_window := 10,
    anomalies := [], battery := 1, battery_threshold := 20, returning := false,
    forward_queue := [] }

/-! The claim theorems. -/

/-- Claim C3: a reading is classified as an anomaly iff temperature < -10
or temperature > 60 or humidity < 0 or humidity > 100; the bounds are
boundary-inclusive (61 or humidity -1 is an anomaly, 60 and 100 is not);
and every parsed reading, anomalous or not, is appended to the rolling
window (ingestion does not consult the classifier, and processing never
removes window entries). -/
theorem anomaly_classification_bounds :
    (∀ r : Reading, isAnomaly r = true ↔
      (r.temperature < -10 ∨ 60 < r.temperature ∨ r.humidity < 0 ∨ 100 < r.humidity)) ∧
    isAnomaly { sensor_id := "s", temperature := 61, humidity := 50, timestamp := "t" } = true ∧
    isAnomaly { sensor_id := "s", temperature := 20, humidity := -1, timestamp := "t" } = true ∧
    isAnomaly { sensor_id := "s", temperature := 60, humidity := 100, timestamp := "t" } = false ∧
    (∀ (parse : String → Option Reading) (st : DroneState) (line : String) (r : Reading),
      parse line = some r →
        ((handleLine parse st line).1).readings
          = dequeAppend st.rolling_window st.readings r) ∧
    (∀ (now : String) (st : DroneState) (r : Reading),
      (processReading now st r).readings = st.readings) := by
  refine ⟨?_, by decide, by decide, by decide, ?_, ?_⟩
  · intro r
    simp [isAnomaly]
    tauto
  · intro parse st line r h
    simp [handleLine, h]
  · intro now st r
    unfold processReading
    by_cases ha : isAnomaly r <;> by_cases hr : st.returning <;> simp [ha, hr]

/-- Witness for C3: a concrete parsed reading lands in the rolling window. -/
theorem anomaly_classification_bounds_witness :
    ((handleLine (fun _ => some exReading) exStActive "x").1).readings
      = dequeAppend exStActive.rolling_window exStActive.readings exReading :=
  anomaly_classification_bounds.2.2.2.2.1 (fun _ => some exReading) exStActive "x" exReading rfl

/-- Claim C4: ingesting any sequence of readings into an empty window of
capacity w leaves exactly the last min(w, k) readings, in arrival order:
the length is min(w, k) at all times and eviction is strict FIFO (the
oldest arrivals are exactly the ones dropped). -/
theorem rolling_window_min_fifo (w : Nat) (rs : List Reading) :
    (ingestAll w rs).length = min w rs.length ∧
    ingestAll w rs = rs.drop (rs.length - w) := by
  have h := foldl_dequeAppend w rs [] (by simp)
  rw [ingestAll, h]
  simp only [List.nil_append, List.length_nil, Nat.zero_add]
  constructor
  · simp only [List.length_drop]
    omega
  · trivial

/-- Claim C5: the average is a pure function of the current window
contents, recomputed at each evaluation: on the empty window it returns
(0, 0) as an explicit edge case, and on a non-empty window it returns
exactly the arithmetic means of the temperatures and humidities (so the
returned components multiplied by the window length give back the sums). -/
theorem current_average_empty_and_mean (rs : List Reading) :
    currentAverage [] = (0, 0) ∧
    (rs ≠ [] →
      currentAverage rs =
        ((rs.map Reading.temperature).sum / rs.length,
         (rs.map Reading.humidity).sum / rs.length) ∧
      (currentAverage rs).1 * rs.length = (rs.map Reading.temperature).sum ∧
      (currentAverage rs).2 * rs.length = (rs.map Reading.humidity).sum) := by
  refine ⟨rfl, ?_⟩
  intro h
  have hne : rs.isEmpty = false := by
    cases rs with
    | nil => exact absurd rfl h
    | cons a l => rfl
  have hn : (rs.length : ℚ) ≠ 0 := by
    have h0 : rs.length ≠ 0 := fun h0 => h (List.length_eq_zero.mp h0)
    exact_mod_cast h0
  refine ⟨by rw [currentAverage, hne]; simp, ?_, ?_⟩
  · rw [currentAverage, hne]
    simp only [Bool.false_eq_true, if_false]
    exact div_mul_cancel₀ _ hn
  · rw [currentAverage, hne]
    simp only [Bool.false_eq_true, if_false]
    exact div_mul_cancel₀ _ hn

/-- Witness for C5: the average of two concrete readings is the
arithmetic mean of their fields. -/
theorem current_average_empty_and_mean_witness :
    currentAverage [exReading, exReading2]
      = ((([exReading, exReading2].map Reading.temperature).sum
            / (([exReading, exReading2] : List Reading).length : ℚ)),
         (([exReading, exReading2].map Reading.humidity).sum
            / (([exReading, exReading2] : List Reading).length : ℚ))) :=
  ((current_average_empty_and_mean [exReading, exReading2]).2 (by simp)).1

theorem mapFields_none_of_other (f : JsonValue → Option ℚ)
    (hf : ∀ p, f (JsonValue.other p) = none) :
    ∀ (w : List JsonValue) (p : String), JsonValue.other p ∈ w → mapFields f w = none := by
  intro w
  induction w with
  | nil => intro p h; simp at h
  | cons v vs ih =>
      intro p h
      rw [mapFields]
      rcases List.mem_cons.mp h with h1 | h2
      · rw [← h1, hf]
      · rw [ih p h2]
        cases f v <;> rfl

theorem rawAverages_none_of_other (w : List JsonValue) (p : String)
    (h : JsonValue.other p ∈ w) : rawAverages w = none := by
  have hne : w.isEmpty = false := by
    cases w with
    | nil => simp at h
    | cons a l => rfl
  rw [rawAverages, hne, if_neg (by simp),
    mapFields_none_of_other rawTemperature (fun _ => rfl) w p h,
    mapFields_none_of_other rawHumidity (fun _ => rfl) w p h]

theorem processRawTick_none_of_other (now : String) (st : RawState) (v : JsonValue)
    (tail2 : List JsonValue) (p : String) (hsd : st.sensor_data = v :: tail2)
    (hw : JsonValue.other p ∈ st.readings) :
    processRawTick now st = none := by
  simp only [processRawTick, hsd]
  have h1 : rawAverages ({ st with sensor_data := tail2 } : RawState).readings = none :=
    rawAverages_none_of_other _ p hw
  rw [h1]

/-- An Active raw state with empty containers. -/
def exRawState : RawState :=
  { sensor_data := [], readings := [], rolling_window := 10,
    anomalies := [], returning := false, forward_queue := [] }

/-- The raw state after ingesting the wrong-shape JSON line `[1, 2]` into
`exRawState`. -/
def exRawStateBad : RawState :=
  { sensor_data := [JsonValue.other "[1, 2]"], readings := [JsonValue.other "[1, 2]"],
    rolling_window := 10, anomalies := [], returning := false, forward_queue := [] }

/-- Counterexample to claim C7 as stated: a line that is valid JSON but
not the expected record shape (`[1, 2]`) is neither discarded nor warned
about — it is ingested into `sensor_data` and the rolling window (the
shared state is changed), and the next processing iteration dies on the
ingested entry; and a line that is not valid UTF-8 ends the reader
thread, so the stream does not continue with the following line. -/
theorem malformed_shape_not_recovered_cex :
    (handleRawLine exRawState (LineParse.wrongShape "[1, 2]")).2 = LineOutcome.ok ∧
    (handleRawLine exRawState (LineParse.wrongShape "[1, 2]")).1 = exRawStateBad ∧
    exRawStateBad ≠ exRawState ∧
    processRawTick "t" exRawStateBad = none ∧
    handleRawLines exRawState [LineParse.notUtf8, LineParse.record exReading]
      = (exRawState, false) := by
  refine ⟨rfl, by decide, by decide, by decide, rfl⟩

/-- Claim C7 as amended: the local, per-record recovery applies exactly to
lines that fail to parse as JSON (`json.JSONDecodeError`): such a line is
discarded with a warning, the shared state is left unchanged, and the
stream continues with the next line.  The recovery does not extend to the
rest of the malformed-input region: a line that is valid JSON but not the
expected record shape is ingested unwarned into the queue and the window,
and the processing loop is killed the next time it runs with that entry
in the window; a line that is not valid UTF-8 raises out of the reader
loop and ends that connection's reader with the state as it was. -/
theorem malformed_json_local_recovery (st : RawState) (rest : List LineParse)
    (now : String) (v : JsonValue) (tail2 : List JsonValue) (p : String) :
    handleRawLine st LineParse.notJson = (st, LineOutcome.warned) ∧
    handleRawLines st (LineParse.notJson :: rest) = handleRawLines st rest ∧
    handleRawLine st (LineParse.wrongShape p)
      = ({ st with
            sensor_data := st.sensor_data ++ [JsonValue.other p]
            readings := dequeAppendRaw st.rolling_window st.readings (JsonValue.other p) },
         LineOutcome.ok) ∧
    (st.sensor_data = v :: tail2 → JsonValue.other p ∈ st.readings →
      processRawTick now st = none) ∧
    handleRawLines st (LineParse.notUtf8 :: rest) = (st, false) := by
  refine ⟨rfl, rfl, rfl, ?_, rfl⟩
  intro hsd hw
  exact processRawTick_none_of_other now st v tail2 p hsd hw

/-- Witness for amended C7: a concrete malformed-JSON line leaves a
concrete state untouched with a warning, and the processing tick dies on
a concrete wrong-shape window entry. -/
theorem malformed_json_local_recovery_witness :
    handleRawLine exRawState LineParse.notJson = (exRawState, LineOutcome.warned) ∧
    processRawTick "t" exRawStateBad = none := by
  refine ⟨(malformed_json_local_recovery exRawState [] "t"
      (JsonValue.other "[1, 2]") [] "[1, 2]").1, ?_⟩
  exact (malformed_json_local_recovery exRawStateBad [] "t"
      (JsonValue.other "[1, 2]") [] "[1, 2]").2.2.2.1 rfl (by decide)

/-- Claim C9: the framed line reader is chunking-independent.  Feeding any
partition of a byte stream chunk by chunk through the buffering loop emits
exactly the lines of the concatenated stream (and leaves the same
unterminated tail in the buffer); those lines are exactly the
newline-terminated decomposition of the concatenation (reassembling them
with their terminators gives the stream back, and neither a line nor the
tail contains a newline); and the decoded records are precisely the
per-line decodings of that decomposition. -/
theorem framed_reader_chunking_independent (parse : List Char → Option Reading)
    (chunks : List (List Char)) :
    readerRecords parse chunks = ((drainBuf chunks.flatten).1).filterMap parse ∧
    readerRun chunks = drainBuf chunks.flatten ∧
    ((((drainBuf chunks.flatten).1).map (fun l => l ++ ['\n'])).flatten
        ++ (drainBuf chunks.flatten).2 = chunks.flatten) ∧
    (∀ l ∈ (drainBuf chunks.flatten).1, '\n' ∉ l) ∧
    '\n' ∉ (drainBuf chunks.flatten).2 := by
  have h1 : readerRun chunks = drainBuf chunks.flatten := by
    rw [readerRun_eq, drainBuf_eq]
  refine ⟨by rw [readerRecords, h1], h1, ?_, ?_, ?_⟩
  · rw [drainBuf_eq]
    exact (splitLines_reconstruct chunks.flatten).1
  · rw [drainBuf_eq]
    exact (splitLines_reconstruct chunks.flatten).2
  · rw [drainBuf_eq]
    exact splitLines_no_nl chunks.flatten

/-- Witness for C9: on a concrete chunking, the incremental reader agrees
with the one-shot split, and the concrete first line contains no
newline. -/
theorem framed_reader_chunking_independent_witness :
    readerRun [['a'], ['\n'], ['b', '\n', 'c']] = drainBuf ['a', '\n', 'b', '\n', 'c'] ∧
    '\n' ∉ (['a'] : List Char) := by
  have h := framed_reader_chunking_independent (fun _ => none) [['a'], ['\n'], ['b', '\n', 'c']]
  refine ⟨h.2.1, ?_⟩
  apply h.2.2.2.1
  rw [drainBuf_eq]
  decide

/-- Counterexample to claim C1 as stated: processing a reading while the
mode is Returning appends nothing to the forward queue — the whole state
is unchanged and the queue stays empty, although the claim requires the
summary to still be appended. -/
theorem returning_drops_summary_cex :
    exStReturning.returning = true ∧
    processReading "t" exStReturning exReading = exStReturning ∧
    (processReading "t" exStReturning exReading).forward_queue = [] := by
  refine ⟨rfl, ?_, ?_⟩ <;> decide

/-- Claim C1 as amended: while the mode is Returning the forward tick
performs no transmission attempt and leaves the state (in particular the
accumulated forward queue) untouched; ingestion into the rolling window
and anomaly detection continue unaffected; but the summary produced from a
reading processed while Returning is discarded — it is NOT appended to the
forward queue (summaries accumulate only while Active). -/
theorem returning_suppresses_forwarding (st : DroneState) (h : st.returning = true)
    (now : String) (r : Reading) (ok : Bool) :
    forwardTick ok st = (st, none) ∧
    (processReading now st r).forward_queue = st.forward_queue ∧
    (processReading now st r).readings = st.readings ∧
    (processReading now st r).anomalies
      = (if isAnomaly r then st.anomalies ++ [r] else st.anomalies) ∧
    (∀ (parse : String → Option Reading) (line : String) (rd : Reading),
      parse line = some rd →
        ((handleLine parse st line).1).readings
          = dequeAppend st.rolling_window st.readings rd) := by
  refine ⟨?_, ?_, ?_, ?_, ?_⟩
  · simp [forwardTick, h]
  · unfold processReading
    by_cases ha : isAnomaly r <;> simp [ha, h]
  · unfold processReading
    by_cases ha : isAnomaly r <;> simp [ha, h]
  · unfold processReading
    by_cases ha : isAnomaly r <;> simp [ha, h]
  · intro parse line rd hp
    simp [handleLine, hp]

/-- Witness for amended C1: in a concrete Returning state a forward tick
does nothing and a processed reading leaves the queue unchanged. -/
theorem returning_suppresses_forwarding_witness :
    forwardTick true exStReturning = (exStReturning, none) ∧
    (processReading "t" exStReturning exReading).forward_queue
      = exStReturning.forward_queue :=
  ⟨(returning_suppresses_forwarding exStReturning rfl "t" exReading true).1,
   (returning_suppresses_forwarding exStReturning rfl "t" exReading true).2.1⟩

/-- Claim C2: a forwarding tick never loses a summary before a successful
send.  When no batch is transmitted (failure, Returning, or empty queue)
the state is exactly what it was; when the send succeeds (mode Active,
queue non-empty) the transmitted batch is exactly the snapshot of the
queue taken under the lock and exactly those entries are cleared; and in
every case each queued summary either stays in the queue or is in the
successfully transmitted batch. -/
theorem forward_tick_no_summary_lost (st : DroneState) :
    (∀ ok : Bool, (forwardTick ok st).2 = none → (forwardTick ok st).1 = st) ∧
    (forwardTick false st).1 = st ∧
    (st.returning = false → st.forward_queue ≠ [] →
      (forwardTick true st).2 = some st.forward_queue ∧
      (forwardTick true st).1.forward_queue = []) ∧
    (∀ ok : Bool, ∀ s ∈ st.forward_queue,
      s ∈ (forwardTick ok st).1.forward_queue ∨
        ∃ batch, (forwardTick ok st).2 = some batch ∧ s ∈ batch) := by
  refine ⟨?_, ?_, ?_, ?_⟩
  · intro ok h
    cases ok <;> unfold forwardTick at h ⊢ <;> split <;> simp_all
  · unfold forwardTick
    split <;> rfl
  · intro hr hq
    have hne : st.forward_queue.isEmpty = false := by
      cases hql : st.forward_queue with
      | nil => exact absurd hql hq
      | cons a l => rfl
    constructor <;> simp [forwardTick, hr, hne]
  · intro ok s hs
    cases ok with
    | false =>
        left
        unfold forwardTick
        split <;> simpa using hs
    | true =>
        unfold forwardTick
        split
        · exact Or.inr ⟨st.forward_queue, rfl, hs⟩
        · exact Or.inl (by simpa using hs)

/-- Witness for C2: on a concrete Active state with a non-empty queue, a
successful send transmits exactly the snapshot and clears the queue, and a
failed send leaves the state untouched. -/
theorem forward_tick_no_summary_lost_witness :
    ((forwardTick true exStActive).2 = some exStActive.forward_queue ∧
      (forwardTick true exStActive).1.forward_queue = []) ∧
    (forwardTick false exStActive).1 = exStActive :=
  ⟨(forward_tick_no_summary_lost exStActive).2.2.1 rfl (by decide),
   (forward_tick_no_summary_lost exStActive).2.1⟩

/-- Claim C6: each decay tick moves the battery to max(0, level - 0.5), so
the level never increases while it stays non-negative; once Returning the
mode never reverts by decay (the transition fires exactly once, at the
first tick whose post-decrement level is at or below the threshold —
equivalently, after n ticks from an Active state the mode is Returning iff
some earlier tick reached the threshold); and the external reset restores
level 100 and Active mode. -/
theorem battery_decay_mode_transition (st : DroneState) (n : Nat) :
    ((0:ℚ) ≤ st.battery → (batteryTick st).battery ≤ st.battery) ∧
    (batteryTick st).battery = max 0 (st.battery - 1/2) ∧
    (st.returning = true → (batteryTick st).returning = true) ∧
    (st.returning = false →
      ((batteryRun st n).returning = true ↔
        ∃ m, 1 ≤ m ∧ m ≤ n ∧ (batteryRun st m).battery ≤ st.battery_threshold)) ∧
    (resetBattery st).battery = 100 ∧
    (resetBattery st).returning = false := by
  refine ⟨?_, rfl, ?_, ?_, rfl, rfl⟩
  · intro h0
    rw [batteryTick_battery]
    apply max_le h0
    linarith
  · intro hr
    rw [batteryTick_returning, hr]
    rfl
  · intro hr
    exact batteryRun_returning_iff st hr n

/-- Witness for C6: from a concrete Active state at level 1 with threshold
20, a single tick lowers the level and flips the mode to Returning. -/
theorem battery_decay_mode_transition_witness :
    (batteryTick exStLowBattery).battery ≤ exStLowBattery.battery ∧
    (batteryRun exStLowBattery 1).returning = true := by
  constructor
  · exact (battery_decay_mode_transition exStLowBattery 1).1 (by norm_num [exStLowBattery])
  · exact ((battery_decay_mode_transition exStLowBattery 1).2.2.2.1 rfl).mpr
      ⟨1, le_rfl, le_rfl, by norm_num [batteryRun, batteryTick, exStLowBattery]⟩

/-- Counterexample to claim C8 as stated: in an Active tick with a
non-empty queue, the forward loop's event trace performs the blocking
network send strictly between acquiring and releasing the shared-state
lock — an operation does hold the lock across a blocking I/O call. -/
theorem forward_send_under_lock_cex :
    sendWhileLocked (forwardTickEvents false true) := by
  decide

/-- Claim C8 as amended: the forward tick performs its network connect and
send while holding the shared-state lock (the whole tick, snapshot
included, is one critical section); the send happens only in the
Active/non-empty case, and the batch it transmits is the snapshot of the
queue taken inside that critical section. -/
theorem forward_send_inside_lock (r q : Bool) (st : DroneState)
    (hr : st.returning = false) (hq : st.forward_queue ≠ []) :
    forwardTickEvents false true
      = [LockEvent.acquire, LockEvent.ioSend, LockEvent.release] ∧
    (LockEvent.ioSend ∈ forwardTickEvents r q → r = false ∧ q = true) ∧
    (forwardTick true st).2 = some st.forward_queue := by
  refine ⟨rfl, ?_, ?_⟩
  · cases r <;> cases q <;> simp [forwardTickEvents]
  · have hne : st.forward_queue.isEmpty = false := by
      cases hql : st.forward_queue with
      | nil => exact absurd hql hq
      | cons a l => rfl
    simp [forwardTick, hr, hne]

/-- Witness for amended C8: on a concrete Active state the successful send
transmits the under-lock snapshot of the queue. -/
theorem forward_send_inside_lock_witness :
    (forwardTick true exStActive).2 = some exStActive.forward_queue :=
  (forward_send_inside_lock false true exStActive rfl (by decide)).2.2

theorem round2_one_third : round2 (1/3 : ℚ) = 33/100 := by
  have hq : ((1:ℚ)/3 * 100) = 100/3 := by norm_num
  have h1 : (33:ℤ) ≤ ((100:ℚ)/3).floor := Rat.le_floor.mpr (by norm_num)
  have h2 : ¬ (34:ℤ) ≤ ((100:ℚ)/3).floor := by
    intro hh
    have h3 := Rat.le_floor.mp hh
    norm_num at h3
  have hf : ((100:ℚ)/3).floor = 33 := by omega
  unfold round2 roundHalfEven
  rw [hq, hf]
  rw [if_pos (by norm_num)]
  norm_num

/-- Claim C10: each reading dequeued while the mode is Active appends
exactly one summary to the forward queue, whose avg fields are the window
means rounded to two decimal places (and rounding is not the identity:
rounded means can differ from the exact means, e.g. at mean 1/3). -/
theorem active_summary_rounded_means (now : String) (st : DroneState) (r : Reading)
    (h : st.returning = false) :
    (processReading now st r).forward_queue
      = st.forward_queue ++
        [{ avg_temp := round2 (currentAverage st.readings).1,
           avg_humid := round2 (currentAverage st.readings).2,
           last_update := now }] ∧
    (∀ rest, st.sensor_data = r :: rest →
      processTick now st = processReading now { st with sensor_data := rest } r) ∧
    round2 (1/3 : ℚ) ≠ (1/3 : ℚ) := by
  refine ⟨?_, ?_, ?_⟩
  · unfold processReading
    by_cases ha : isAnomaly r <;> simp [ha, h]
  · intro rest hsd
    rw [processTick, hsd]
  · rw [round2_one_third]
    norm_num

/-- Witness for C10: a concrete Active state gets exactly one summary
appended, carrying the rounded means of its two-reading window. -/
theorem active_summary_rounded_means_witness :
    (processReading "t2" exStActive exReading2).forward_queue
      = exStActive.forward_queue ++
        [{ avg_temp := round2 (currentAverage exStActive.readings).1,
           avg_humid := round2 (currentAverage exStActive.readings).2,
           last_update := "t2" }] :=
  (active_summary_rounded_means "t2" exStActive exReading2 rfl).1

end DroneEdge
